import Mathlib

/-!
Verification of the smart-turn-go streaming speech-turn detection engine.

Embedding conventions:
* Audio samples are opaque to the segmenter, the engine and the VAD context
  (they are copied, appended and sliced but never used arithmetically), so the
  `float32` sample carrier is modelled as `Int`.
* Probabilities, thresholds and tensor contents are modelled as `ℚ`; the code
  only compares them (`>`, `<`, `>=`), and those comparisons are
  order-embedding-faithful for exact values.
* The ONNX inference runtime is a black box in the source (a session maps
  input tensors to output tensors or fails); each call's outcome is passed in
  as an explicit `Except` parameter.
* Go `int` values that are provably non-negative in every reachable state
  (counters, ring indices, millisecond configuration fields validated by
  `validateConfig`) are modelled as `Nat`.
-/

/-- A frame of audio samples (Go `[]float32`, samples modelled as `Int`). -/
abbrev Chunk := List Int

/-- `segmentResult` from segment.go: returned by `processChunk` on every chunk. -/
structure SegmentResult where
  Started : Bool := false
  Ended : Bool := false
  EndedBySilence : Bool := false
  Segment : List Int := []
deriving Repr, DecidableEq

/-- `configSegment` from segment.go. -/
structure ConfigSegment where
  preChunks : Nat
  stopChunks : Nat
  maxChunks : Nat
  chunkSize : Nat
deriving Repr, DecidableEq

/-- `segmenter` from segment.go.  `preBuffer` is the fixed-size ring of
pre-speech frames (`nil` slots are `none`). -/
structure Segmenter where
  cfg : ConfigSegment
  preBuffer : List (Option Chunk)
  preBufIdx : Nat
  preBufCount : Nat
  segment : List Int
  speechActive : Bool
  trailingChunks : Nat
  sinceTrigger : Nat
deriving Repr, DecidableEq

/-- `ceilDiv` from segment.go: `(a+b-1)/b`, with 0 when `b <= 0`. -/
def ceilDiv (a b : Nat) : Nat :=
  if b = 0 then 0 else (a + b - 1) / b

/-- `newSegmenter` from segment.go.  The source computes `chunkMs` in
`float64` and `maxChunks` in `float32`; both are modelled by exact `ℚ`
arithmetic (exact for every value exercised here, e.g. `512/16000*1000 = 32`),
with Go's `int(...)` conversion of a non-negative value modelled as the floor. -/
def mkSegmenter (sampleRate chunkSize preSpeechMs stopMs : Nat) (maxDurationSec : ℚ) : Segmenter :=
  let chunkMs : ℚ := (chunkSize : ℚ) / (sampleRate : ℚ) * 1000
  let chunkMsInt : Nat := (⌊chunkMs⌋).toNat
  let preChunks0 := ceilDiv preSpeechMs (Nat.max 1 chunkMsInt)
  let preChunks1 := if preChunks0 = 0 then 1 else preChunks0
  let preChunks := Nat.min preChunks1 256
  let stopChunks0 := ceilDiv stopMs (Nat.max 1 chunkMsInt)
  let stopChunks := if stopChunks0 = 0 then 1 else stopChunks0
  let maxChunks0 := (⌊maxDurationSec * (sampleRate : ℚ) / (chunkSize : ℚ)⌋).toNat
  let maxChunks := if maxChunks0 = 0 then 1 else maxChunks0
  { cfg := ⟨preChunks, stopChunks, maxChunks, chunkSize⟩
    preBuffer := List.replicate preChunks none
    preBufIdx := 0
    preBufCount := 0
    segment := []
    speechActive := false
    trailingChunks := 0
    sinceTrigger := 0 }

/-- `buildSegmentWithChunk` from segment.go: concatenate the `preBufCount`
ring slots oldest-first (skipping `nil` slots), then append `firstChunk`.
Go computes `startIdx := (preBufIdx - preBufCount + preChunks) % preChunks`;
the operands are reordered to `preBufIdx + preChunks - preBufCount` so that
the `Nat` subtraction never truncates (equal to Go whenever
`preBufCount ≤ preBufIdx + preChunks`, which every reachable state satisfies). -/
def buildSegmentWithChunk (s : Segmenter) (firstChunk : Chunk) : List Int :=
  let startIdx := (s.preBufIdx + s.cfg.preChunks - s.preBufCount) % s.cfg.preChunks
  let ringPart := (List.range s.preBufCount).foldl
    (fun seg i =>
      match s.preBuffer.getD ((startIdx + i) % s.cfg.preChunks) none with
      | some c => seg ++ c
      | none => seg) []
  ringPart ++ firstChunk

/-- `reset` from segment.go: clear the segment, the flags, the counters and
every ring slot. -/
def segReset (s : Segmenter) : Segmenter :=
  { s with
    segment := []
    speechActive := false
    trailingChunks := 0
    sinceTrigger := 0
    preBufIdx := 0
    preBufCount := 0
    preBuffer := s.preBuffer.map (fun _ => none) }

/-- `processChunk` from segment.go, as explicit state passing:
returns the `segmentResult` and the updated segmenter. -/
def processChunk (s : Segmenter) (isSpeech : Bool) (chunk : Chunk) : SegmentResult × Segmenter :=
  if chunk.length ≠ s.cfg.chunkSize then ({}, s)
  else
    let chunkCopy := chunk
    if !s.speechActive then
      let s1 : Segmenter :=
        { s with
          preBuffer := s.preBuffer.set s.preBufIdx (some chunkCopy)
          preBufIdx := (s.preBufIdx + 1) % s.cfg.preChunks }
      let s2 : Segmenter :=
        if s1.preBufCount < s1.cfg.preChunks then
          { s1 with preBufCount := s1.preBufCount + 1 }
        else s1
      if isSpeech then
        let s3 : Segmenter :=
          { s2 with speechActive := true, trailingChunks := 0, sinceTrigger := 1 }
        let seg := buildSegmentWithChunk s3 chunkCopy
        ({ Started := true, Segment := seg }, { s3 with segment := seg })
      else ({}, s2)
    else
      let s1 : Segmenter :=
        { s with segment := s.segment ++ chunkCopy, sinceTrigger := s.sinceTrigger + 1 }
      let s2 : Segmenter :=
        if isSpeech then { s1 with trailingChunks := 0 }
        else { s1 with trailingChunks := s1.trailingChunks + 1 }
      if s2.trailingChunks ≥ s2.cfg.stopChunks then
        ({ Ended := true, EndedBySilence := true, Segment := s2.segment }, segReset s2)
      else if s2.sinceTrigger ≥ s2.cfg.maxChunks then
        ({ Ended := true, EndedBySilence := false, Segment := s2.segment }, segReset s2)
      else ({ Segment := s2.segment }, s2)

/-- Fold a list of `(isSpeech, chunk)` inputs through `processChunk`,
collecting every per-chunk result. -/
def runSegmenter (s : Segmenter) : List (Bool × Chunk) → List SegmentResult × Segmenter
  | [] => ([], s)
  | (b, c) :: rest =>
    let rs := processChunk s b c
    let rest' := runSegmenter rs.2 rest
    (rs.1 :: rest'.1, rest'.2)

/-! ## VAD wrapper (silero_vad.go)

The ONNX session is a black box: each `speechProb` call's session outcome is
passed in as an `Except` parameter carrying the probability and the new hidden
state on success.  The 5-second wall-clock reset check (`maybeReset`) is
modelled by the Boolean parameter `resetDue` (true when at least 5 s have
elapsed since the last reset). -/

/-- The engine's error values.  `engineClosed` is the error built by
`errors.New("engine is closed")` in `PushPCM`; `chunkSize` is `ErrChunkSize`
(resp. the identical-message `errChunkSize` of silero_vad.go);
`invalidSegment` is `errInvalidSegment`; `inference` stands for an opaque
error surfaced by the ONNX runtime, tagged by an arbitrary code. -/
inductive EngineError where
  | engineClosed
  | chunkSize
  | invalidSegment
  | inference (code : Nat)
deriving Repr, DecidableEq

/-- The mutable state of `sileroVAD`: the 64-sample rolling context and the
2×1×128 hidden-state tensor contents (flattened). -/
structure VadState where
  context : List Int
  stateT : List ℚ
deriving Repr, DecidableEq

/-- The state of a freshly constructed `sileroVAD` (Go zero-initializes the
`context` and `stateBuf` arrays, and the tensors are created over zeroed
backing slices). -/
def initVadState : VadState :=
  { context := List.replicate 64 0, stateT := List.replicate 256 0 }

/-- `resetState` from silero_vad.go: zero the context and the hidden state
(and restart the reset timer, which lives outside the embedded state). -/
def vadResetState (_ : VadState) : VadState := initVadState

/-- `speechProb` from silero_vad.go.  `resetDue` models
`time.Since(v.lastReset) >= sileroResetInterval`; `runOut` is the session
outcome — on success the probability `output[0]` and the `stateN` contents.
The input tensor is `context ++ chunk` (64+512 = 576 samples) and the context
is updated to the last 64 samples of that input before the session runs, so
the update happens even when inference fails. -/
def speechProbM (v : VadState) (resetDue : Bool)
    (runOut : Except EngineError (ℚ × List ℚ)) (chunk : Chunk) :
    Except EngineError ℚ × VadState :=
  if chunk.length ≠ 512 then (.error .chunkSize, v)
  else
    let v1 := if resetDue then vadResetState v else v
    let inputData := v1.context ++ chunk
    let v2 := { v1 with context := inputData.drop 512 }
    match runOut with
    | .error e => (.error e, v2)
    | .ok pr => (.ok pr.1, { v2 with stateT := pr.2 })

/-! ## Engine (the part_004 engine with pending-turn support)

Callbacks are modelled by a registration record (`cb.X = true` iff the Go
callback field is non-nil) plus an event trace: the engine appends an event
exactly when the corresponding non-nil callback would be invoked, in
invocation order.  Smart-Turn inference outcomes are passed in as an `Except`
parameter, consumed only if the code reaches `smartTurn.run`. -/

/-- One callback invocation, in the order the engine makes them. -/
inductive Event where
  | speechStart
  | speechEnd
  | chunkEv (c : Chunk)
  | segmentReady (s : List Int)
  | turnPrediction (complete : Bool) (probability : ℚ)
  | errorEv (e : EngineError)
deriving Repr, DecidableEq

/-- Which callbacks are registered (non-nil) in the `Callbacks` struct. -/
structure Reg where
  onSpeechStart : Bool
  onSpeechEnd : Bool
  onChunk : Bool
  onSegmentReady : Bool
  onTurnPrediction : Bool
  onError : Bool
deriving Repr, DecidableEq

/-- The configuration-derived engine fields read by `PushPCM`:
`cfg.VadThreshold`, `cfg.TurnThreshold`, and the derived
`segmentEmitSamples` and `turnTimeoutChunks`. -/
structure EngineCfg where
  vadThreshold : ℚ
  turnThreshold : ℚ
  segmentEmitSamples : Nat
  turnTimeoutChunks : Nat
deriving Repr, DecidableEq

/-- The engine's mutable state. -/
structure EngineState where
  vad : VadState
  seg : Segmenter
  listening : Bool
  closed : Bool
  segmentEmittedSoFar : Nat
  turnPending : Bool
  turnPendingSilenceChunks : Nat
deriving Repr, DecidableEq

/-- `smartTurnResult` from smart_turn.go. -/
structure SmartTurnResult where
  Complete : Bool
  Probability : ℚ
deriving Repr, DecidableEq

/-- `smartTurn.run` from smart_turn.go: `computeWhisperMel` returns the nil
sentinel exactly when the segment is empty (whisper mel, part_000 line 25),
giving `errInvalidSegment`; otherwise the session either fails (opaque error)
or yields the probability, and `Complete = probability > 0.5`. -/
def smartTurnRunM (runOut : Except EngineError ℚ) (segment : List Int) :
    Except EngineError SmartTurnResult :=
  if segment.length = 0 then .error .invalidSegment
  else
    match runOut with
    | .error e => .error e
    | .ok p => .ok { Complete := decide (p > mkRat 1 2), Probability := p }

/-- The pending-turn bookkeeping block of `PushPCM` (part_004 lines 145-159):
while `turnPending`, count consecutive silence chunks and fire the deferred
`OnSpeechEnd` when the counter reaches `turnTimeoutChunks`. -/
def pendingStep (cfg : EngineCfg) (cb : Reg) (isSpeech : Bool) (st : EngineState) :
    EngineState × List Event :=
  if st.turnPending then
    if isSpeech then ({ st with turnPendingSilenceChunks := 0 }, [])
    else
      let c := st.turnPendingSilenceChunks + 1
      if c ≥ cfg.turnTimeoutChunks then
        ({ st with turnPending := false, turnPendingSilenceChunks := 0 },
         if cb.onSpeechEnd then [.speechEnd] else [])
      else ({ st with turnPendingSilenceChunks := c }, [])
  else (st, [])

/-- The incremental-emission loop of `PushPCM` (part_004 lines 178-192):
while the segment extends at least `emitSamples` past `emitted`, emit the next
`emitSamples`-sample window and advance.  Returns the events and the final
`segmentEmittedSoFar`.  (The Go guard `total-emitted >= emitSamples` is the
dependent condition here; `emitSamples > 0` is guaranteed by the enclosing
`if` in the source and makes the loop terminate.) -/
def emitLoop (segment : List Int) (emitSamples : Nat) (emitted : Nat) :
    List Event × Nat :=
  if _h : 0 < emitSamples ∧ emitted + emitSamples ≤ segment.length then
    let slice := (segment.drop emitted).take emitSamples
    let rest := emitLoop segment emitSamples (emitted + emitSamples)
    (Event.segmentReady slice :: rest.1, rest.2)
  else ([], emitted)
termination_by segment.length - emitted
decreasing_by omega

/-- The Smart-Turn decision inside the segment-end block of `PushPCM`
(part_004 lines 217-229): run the classifier; on failure fire `OnError` (if
registered) and report "do not end speech"; on success fire
`OnTurnPrediction` when registered, and report "do not end speech" iff that
callback is registered and the probability is below `TurnThreshold`.
The returned Boolean is `shouldEndSpeech`. -/
def turnDecision (cfg : EngineCfg) (cb : Reg) (turnOut : Except EngineError ℚ)
    (segment : List Int) : Bool × List Event :=
  match smartTurnRunM turnOut segment with
  | .error e => (false, if cb.onError then [.errorEv e] else [])
  | .ok r =>
    if cb.onTurnPrediction then
      (decide (¬(r.Probability < cfg.turnThreshold)),
       [.turnPrediction r.Complete r.Probability])
    else (true, [])

/-- The segment-end block of `PushPCM` (part_004 lines 195-242): emit the
remaining tail, run Smart-Turn when the segment ended by silence, decide
`shouldEndSpeech`, fire `OnSpeechEnd` or enter the pending-turn state, and
reset `segmentEmittedSoFar`. -/
def endStep (cfg : EngineCfg) (cb : Reg) (turnOut : Except EngineError ℚ)
    (res : SegmentResult) (st : EngineState) : EngineState × List Event :=
  if res.Ended then
    let tailEvs :=
      if res.Segment.length > st.segmentEmittedSoFar ∧ cb.onSegmentReady then
        [Event.segmentReady (res.Segment.drop st.segmentEmittedSoFar)]
      else []
    let turnStep : Bool × List Event :=
      if res.EndedBySilence then turnDecision cfg cb turnOut res.Segment
      else (true, [])
    let endPart : EngineState × List Event :=
      if turnStep.1 then
        ({ st with turnPending := false, turnPendingSilenceChunks := 0 },
         if cb.onSpeechEnd then [.speechEnd] else [])
      else
        ({ st with turnPending := true, turnPendingSilenceChunks := 0 }, [])
    ({ endPart.1 with segmentEmittedSoFar := 0 }, tailEvs ++ turnStep.2 ++ endPart.2)
  else (st, [])

/-- `PushPCM` from part_004 (the pending-turn engine, lines 125-244).
Returns the error result (`none` = success), the new engine state and the
trace of callback invocations. -/
def pushPCM (cfg : EngineCfg) (cb : Reg) (resetDue : Bool)
    (vadOut : Except EngineError (ℚ × List ℚ)) (turnOut : Except EngineError ℚ)
    (st : EngineState) (chunk : Chunk) :
    Option EngineError × EngineState × List Event :=
  if st.closed then (some .engineClosed, st, [])
  else if chunk.length ≠ 512 then (some .chunkSize, st, [])
  else if !st.listening then (none, st, [])
  else
    let vp := speechProbM st.vad resetDue vadOut chunk
    match vp.1 with
    | .error e =>
      (some e, { st with vad := vp.2 }, if cb.onError then [.errorEv e] else [])
    | .ok prob =>
      let st0 := { st with vad := vp.2 }
      let isSpeech := decide (prob > cfg.vadThreshold)
      let p1 := pendingStep cfg cb isSpeech st0
      let st1 := p1.1
      let rs := processChunk st1.seg isSpeech chunk
      let res := rs.1
      let st2 := { st1 with seg := rs.2 }
      let st3 := if res.Started then { st2 with segmentEmittedSoFar := 0 } else st2
      let startEvs :=
        if res.Started ∧ ¬st3.turnPending ∧ cb.onSpeechStart then [Event.speechStart] else []
      let chunkEvs := if cb.onChunk then [Event.chunkEv chunk] else []
      let emitPart : EngineState × List Event :=
        if res.Segment.length > 0 ∧ cfg.segmentEmitSamples > 0 ∧ cb.onSegmentReady then
          let el := emitLoop res.Segment cfg.segmentEmitSamples st3.segmentEmittedSoFar
          ({ st3 with segmentEmittedSoFar := el.2 }, el.1)
        else (st3, [])
      let st4 := emitPart.1
      let ep := endStep cfg cb turnOut res st4
      (none, ep.1, p1.2 ++ startEvs ++ chunkEvs ++ emitPart.2 ++ ep.2)

/-- A lifecycle or frame operation on the engine, with the per-call oracle
inputs embedded (`Close`'s session-destroy outcomes do not affect state). -/
inductive Op where
  | push (resetDue : Bool) (vadOut : Except EngineError (ℚ × List ℚ))
      (turnOut : Except EngineError ℚ) (chunk : Chunk)
  | start
  | stop
  | reset
  | close

/-- The state transition of each engine method (part_004): `Start`, `Stop`,
`Reset` and `Close` are no-ops when closed; `Close` destroys the sessions and
marks the engine closed. -/
def applyOp (cfg : EngineCfg) (cb : Reg) (op : Op) (st : EngineState) : EngineState :=
  match op with
  | .push rd v t c => (pushPCM cfg cb rd v t st c).2.1
  | .start => if st.closed then st else { st with listening := true }
  | .stop => if st.closed then st else { st with listening := false }
  | .reset =>
    if st.closed then st
    else { st with vad := vadResetState st.vad, seg := segReset st.seg,
                   turnPending := false, turnPendingSilenceChunks := 0 }
  | .close => if st.closed then st else { st with closed := true, listening := false }

/-- Apply a sequence of operations in order. -/
def runOps (cfg : EngineCfg) (cb : Reg) (ops : List Op) (st : EngineState) : EngineState :=
  ops.foldl (fun s op => applyOp cfg cb op s) st

/-! ## Whisper mel feature extractor (part_000)

The extractor computes over `float32`/`float64`; it is embedded over exact
`ℚ` arithmetic, with the transcendental library functions (`math.Cos`,
`math.Sin`, `math.Log10`, `math.Pow(10, ·)`, `math.Sqrt`) and the value of
`math.Pi` abstracted as the parameter record `FloatOps`, since the claims
about the extractor (output shape, the empty-input sentinel and the
dynamic-range bounds) hold for every value those functions can return. -/

/-- The transcendental float operations used by the mel extractor. -/
structure FloatOps where
  pi : ℚ
  cos : ℚ → ℚ
  sin : ℚ → ℚ
  log10 : ℚ → ℚ
  pow10 : ℚ → ℚ
  sqrt : ℚ → ℚ

/-- `hzToMel` from part_000: `2595 * log10(1 + hz/700)`. -/
def hzToMel (F : FloatOps) (hz : ℚ) : ℚ := 2595 * F.log10 (1 + hz / 700)

/-- `melToHz` from part_000: `700 * (10^(mel/2595) - 1)`. -/
def melToHz (F : FloatOps) (mel : ℚ) : ℚ := 700 * (F.pow10 (mel / 2595) - 1)

/-- The `hzPoints` of `getMelFilterbank`: `nMels + 2` mel-spaced frequencies
between 0 Hz and 8000 Hz. -/
def hzPoint (F : FloatOps) (nMels i : Nat) : ℚ :=
  let lowMel := hzToMel F 0
  let highMel := hzToMel F 8000
  melToHz F (lowMel + (highMel - lowMel) * (i : ℚ) / ((nMels : ℚ) + 1))

/-- The `binFreq` of `getMelFilterbank`: `k * 16000 / (2*(nBins-1))`. -/
def binFreq (nBins k : Nat) : ℚ := (k : ℚ) * 16000 / (2 * ((nBins : ℚ) - 1))

/-- Entry `filters[m*nBins+k]` of `getMelFilterbank` from part_000:
a triangle rising on `[left, center]` and falling on `(center, right]`.
(The source caches the filterbank; the cache returns the same values, so it
is dropped from the pure embedding.) -/
def melFilterEntry (F : FloatOps) (nMels nBins m k : Nat) : ℚ :=
  let left := hzPoint F nMels m
  let center := hzPoint F nMels (m + 1)
  let right := hzPoint F nMels (m + 2)
  let f := binFreq nBins k
  if f ≥ left ∧ f ≤ center then (f - left) / (center - left)
  else if f > center ∧ f ≤ right then (right - f) / (right - center)
  else 0

/-- `getHannWindow` entry `i` from part_000: `0.5*(1 - cos(2πi/n))`. -/
def hannEntry (F : FloatOps) (n i : Nat) : ℚ :=
  1/2 * (1 - F.cos (2 * F.pi * (i : ℚ) / (n : ℚ)))

/-- The windowed sample `fftBuf[i*2] = padded[offset+i] * window[i]` of frame
`t` (the odd, imaginary slots are zero and contribute nothing to the sums). -/
def windowedSample (F : FloatOps) (padded : List ℚ) (t i : Nat) : ℚ :=
  padded.getD (t * 160 + i) 0 * hannEntry F 400 i

/-- `realFFTPowerInto` bin `k` for frame `t` from part_000:
`(re² + im²)/n²` with a direct 400-point DFT. -/
def powerEntry (F : FloatOps) (padded : List ℚ) (t k : Nat) : ℚ :=
  let n : Nat := 400
  let re := ((List.range n).map
    (fun i => windowedSample F padded t i *
      F.cos (-2 * F.pi * (k : ℚ) * (i : ℚ) / (n : ℚ)))).sum
  let im := ((List.range n).map
    (fun i => windowedSample F padded t i *
      F.sin (-2 * F.pi * (k : ℚ) * (i : ℚ) / (n : ℚ)))).sum
  (re * re + im * im) / ((n : ℚ) * (n : ℚ))

/-- The raw (pre-compression) log-mel entry `mel[m*800+t]` of
`computeWhisperMelFromPadded`: for frames with `offset+400 ≤ len(padded)` the
log10 of the filter-weighted power floored at `1e-10`; frames past the break
keep the zero the `make` call initialized.  (The Go loop `break`s at the first
such frame; the cutoff condition is monotone in `t`, so the per-frame guard is
equivalent.) -/
def melRawEntry (F : FloatOps) (padded : List ℚ) (m t : Nat) : ℚ :=
  if t * 160 + 400 ≤ padded.length then
    let v := ((List.range 201).map
      (fun k => melFilterEntry F 80 201 m k * powerEntry F padded t k)).sum
    F.log10 (if v < 1 / 10 ^ 10 then 1 / 10 ^ 10 else v)
  else 0

/-- The full 80×800 raw log-mel buffer, row-major (`mel[m*800+t]`). -/
def melRaw (F : FloatOps) (padded : List ℚ) : List ℚ :=
  (List.range (80 * 800)).map (fun j => melRawEntry F padded (j / 800) (j % 800))

/-- `maxVal` of `computeWhisperMelFromPadded`: running maximum over the raw
buffer, seeded with the sentinel `-1e30`. -/
def melMax (F : FloatOps) (padded : List ℚ) : ℚ :=
  (melRaw F padded).foldl (fun acc x => if x > acc then x else acc) (-(10 ^ 30))

/-- `computeWhisperMelFromPadded` from part_000: `nil` unless the padded
buffer is exactly 128 000 samples; otherwise clip every raw entry to
`maxVal - 8` from below and rescale by `(x + 4)/4`. -/
def computeWhisperMelFromPadded (F : FloatOps) (padded : List ℚ) : Option (List ℚ) :=
  if padded.length ≠ 128000 then none
  else
    let maxVal := melMax F padded
    some ((melRaw F padded).map
      (fun x => ((if x < maxVal - 8 then maxVal - 8 else x) + 4) / 4))

/-- The padded buffer built by the body of `computeWhisperMel` from part_000:
keep the last 128 000 samples, normalize them to zero mean and unit variance
(variance clamped to `[1e-7, ∞)`), and left-pad with zeros to 128 000
samples. -/
def paddedAudio (F : FloatOps) (audio : List ℚ) : List ℚ :=
  let audio1 := if audio.length > 128000 then audio.drop (audio.length - 128000) else audio
  let n : ℚ := (audio1.length : ℚ)
  let sum := audio1.sum
  let sumSq := (audio1.map (fun x => x * x)).sum
  let mean := sum / n
  let variance0 := sumSq / n - mean * mean
  let variance1 := if variance0 < 0 then 0 else variance0
  let variance := if variance1 < 1 / 10 ^ 7 then 1 / 10 ^ 7 else variance1
  let scale := 1 / F.sqrt variance
  let normalized := audio1.map (fun x => (x - mean) * scale)
  if audio1.length ≥ 128000 then normalized
  else List.replicate (128000 - audio1.length) 0 ++ normalized

/-- `computeWhisperMel` from part_000: `nil` on empty input; otherwise build
the normalized padded buffer and hand off to
`computeWhisperMelFromPadded`. -/
def computeWhisperMel (F : FloatOps) (audio : List ℚ) : Option (List ℚ) :=
  if audio.length = 0 then none
  else computeWhisperMelFromPadded F (paddedAudio F audio)

/-- A concrete instantiation of the transcendental operations (each constantly
zero), used to evaluate the mel pipeline on concrete inputs. -/
def F0 : FloatOps :=
  { pi := 0, cos := fun _ => 0, sin := fun _ => 0, log10 := fun _ => 0,
    pow10 := fun _ => 0, sqrt := fun _ => 0 }

/-! ## Trace-order predicates -/

/-- The position of each callback in the `PushPCM` dispatch order. -/
def rank : Event → Nat
  | .speechStart => 1
  | .chunkEv _ => 2
  | .segmentReady _ => 3
  | .errorEv _ => 4
  | .turnPrediction _ _ => 4
  | .speechEnd => 5

/-- A trace whose events appear in non-decreasing dispatch rank. -/
def TraceOrdered (t : List Event) : Prop :=
  t.Pairwise (fun a b => rank a ≤ rank b)

/-- The rank assignment of the spec's ordering sentence, which lists only
`OnSpeechStart`, `OnChunk`, `OnSegmentReady`, `OnTurnPrediction` and
`OnSpeechEnd` (errors are not part of the claimed order). -/
def claimRank : Event → Option Nat
  | .speechStart => some 1
  | .chunkEv _ => some 2
  | .segmentReady _ => some 3
  | .turnPrediction _ _ => some 4
  | .speechEnd => some 5
  | .errorEv _ => none

/-- The ordering property claimed by the spec: the listed callbacks fire in
non-decreasing claimed rank within one call. -/
def ClaimOrderedTrace (t : List Event) : Prop :=
  (t.filterMap claimRank).Pairwise (fun a b => a ≤ b)

/-- Well-formedness of a segmenter state: the shape facts every state
reachable from `newSegmenter` satisfies (ring of the configured size, a valid
ring index, only full-size frames stored, and — while a segment is active —
the segment-length/counter relationship). -/
def SegWF (s : Segmenter) : Prop :=
  1 ≤ s.cfg.preChunks ∧
  s.preBuffer.length = s.cfg.preChunks ∧
  s.preBufIdx < s.cfg.preChunks ∧
  s.preBufCount ≤ s.cfg.preChunks ∧
  (∀ c ∈ s.preBuffer, ∀ ch, c = some ch → ch.length = s.cfg.chunkSize) ∧
  (s.speechActive = true →
    s.segment.length ≤ (s.cfg.preChunks + s.sinceTrigger) * s.cfg.chunkSize ∧
    1 ≤ s.sinceTrigger ∧ s.sinceTrigger ≤ Nat.max 1 (s.cfg.maxChunks - 1))

/-! ## Concrete fixtures for witnesses and counterexamples -/

/-- An all-zero "silence" frame. -/
def chunk0 : Chunk := List.replicate 512 0

/-- A concrete non-zero frame. -/
def chunk3 : Chunk := List.replicate 512 3

/-- An idle segmenter with a one-slot ring (as produced by
`newSegmenter 16000 512 0 1000 8` up to the counter fields). -/
def segIdle1 : Segmenter :=
  { cfg := ⟨1, 1, 250, 512⟩, preBuffer := [none], preBufIdx := 0, preBufCount := 0,
    segment := [], speechActive := false, trailingChunks := 0, sinceTrigger := 0 }

/-- An idle segmenter with a one-slot ring and one-sample chunks
(`chunkSize = 1`, `stopChunks = 1`, `maxChunks = 2`), small enough for the
kernel to evaluate whole runs. -/
def segTiny : Segmenter :=
  { cfg := ⟨1, 1, 2, 1⟩, preBuffer := [none], preBufIdx := 0, preBufCount := 0,
    segment := [], speechActive := false, trailingChunks := 0, sinceTrigger := 0 }

/-- A segmenter one speech frame into a segment whose `maxChunks = 1`, so the
next frame ends it by the max-duration cap. -/
def segActiveCap : Segmenter :=
  { cfg := ⟨1, 5, 1, 512⟩, preBuffer := [none], preBufIdx := 0, preBufCount := 0,
    segment := List.replicate 512 2, speechActive := true, trailingChunks := 0,
    sinceTrigger := 1 }

/-- A segmenter one speech frame into a segment whose `stopChunks = 1`, so the
next silence frame ends it by trailing silence. -/
def segActiveSil : Segmenter :=
  { cfg := ⟨1, 1, 100, 512⟩, preBuffer := [none], preBufIdx := 0, preBufCount := 0,
    segment := List.replicate 512 2, speechActive := true, trailingChunks := 0,
    sinceTrigger := 1 }

/-- An open, listening engine state over the given segmenter. -/
def stOf (s : Segmenter) (pending : Bool) : EngineState :=
  { vad := initVadState, seg := s, listening := true, closed := false,
    segmentEmittedSoFar := 0, turnPending := pending, turnPendingSilenceChunks := 0 }

/-- All callbacks registered. -/
def allCbs : Reg := ⟨true, true, true, true, true, true⟩

/-- All callbacks registered except `OnTurnPrediction`. -/
def noTurnCb : Reg := ⟨true, true, true, true, false, true⟩

/-- A concrete engine configuration: `vadThreshold = 0`, `turnThreshold = 1`,
no incremental emission, a one-chunk pending-turn timeout. -/
def cfg0 : EngineCfg :=
  { vadThreshold := 0, turnThreshold := 1, segmentEmitSamples := 0, turnTimeoutChunks := 1 }

/-! ## Theorems -/

/-- C10: `processChunk` never reports `Started` and `Ended` on the same
frame: the end-condition checks are only reached when a segment was already
active, so a segment never starts and finalizes on one chunk, even with
`stopChunks = 1` or `maxChunks = 1`. -/
theorem processChunk_not_started_and_ended (s : Segmenter) (b : Bool) (c : Chunk) :
    ¬((processChunk s b c).1.Started = true ∧ (processChunk s b c).1.Ended = true) := by
  unfold processChunk
  dsimp only
  split
  · simp
  · split
    · split <;> simp
    · split_ifs <;> simp

theorem pushPCM_on_closed (cfg : EngineCfg) (cb : Reg) (rd : Bool)
    (v : Except EngineError (ℚ × List ℚ)) (t : Except EngineError ℚ)
    (st : EngineState) (chunk : Chunk) (h : st.closed = true) :
    pushPCM cfg cb rd v t st chunk = (some .engineClosed, st, []) := by
  unfold pushPCM
  simp [h]

theorem applyOp_preserves_closed (cfg : EngineCfg) (cb : Reg) (op : Op)
    (st : EngineState) (h : st.closed = true) :
    (applyOp cfg cb op st).closed = true := by
  cases op with
  | push rd v t c => simp [applyOp, pushPCM_on_closed cfg cb rd v t st c h, h]
  | start => simp [applyOp, h]
  | stop => simp [applyOp, h]
  | reset => simp [applyOp, h]
  | close => simp [applyOp, h]

theorem runOps_preserves_closed (cfg : EngineCfg) (cb : Reg) (ops : List Op)
    (st : EngineState) (h : st.closed = true) :
    (runOps cfg cb ops st).closed = true := by
  induction ops generalizing st with
  | nil => simpa [runOps] using h
  | cons op rest ih =>
    have h1 := applyOp_preserves_closed cfg cb op st h
    simpa [runOps, List.foldl_cons] using ih (applyOp cfg cb op st) h1

/-- C9: after `Close`, the engine stays closed through any sequence of
further operations, and every `PushPCM` call fails immediately with the
"engine is closed" error, leaving the state untouched and invoking no
callback (empty trace) — before any VAD or segmenter activity. -/
theorem pushPCM_after_close (cfg : EngineCfg) (cb : Reg) (st0 : EngineState)
    (ops : List Op) (rd : Bool) (v : Except EngineError (ℚ × List ℚ))
    (t : Except EngineError ℚ) (chunk : Chunk) :
    (runOps cfg cb ops (applyOp cfg cb .close st0)).closed = true ∧
    pushPCM cfg cb rd v t (runOps cfg cb ops (applyOp cfg cb .close st0)) chunk =
      (some .engineClosed, runOps cfg cb ops (applyOp cfg cb .close st0), []) := by
  have hclosed : (applyOp cfg cb .close st0).closed = true := by
    simp only [applyOp]
    split_ifs with hc
    · exact hc
    · rfl
  have h2 := runOps_preserves_closed cfg cb ops _ hclosed
  exact ⟨h2, pushPCM_on_closed cfg cb rd v t _ chunk h2⟩

/-- C8: the VAD rolling context is all zeros right after construction and
after `resetState`, and after every successful `speechProb` call it equals
the last 64 samples of the 576-element `context ++ frame` input assembled for
that call — equivalently, the last 64 samples of the frame. -/
theorem vad_context_invariant (v : VadState) (resetDue : Bool)
    (runOut : Except EngineError (ℚ × List ℚ)) (chunk : Chunk) (p : ℚ)
    (hctx : v.context.length = 64) (hlen : chunk.length = 512)
    (hok : (speechProbM v resetDue runOut chunk).1 = .ok p) :
    initVadState.context = List.replicate 64 0 ∧
    (vadResetState v).context = List.replicate 64 0 ∧
    (speechProbM v resetDue runOut chunk).2.context =
      ((if resetDue then vadResetState v else v).context ++ chunk).drop 512 ∧
    (speechProbM v resetDue runOut chunk).2.context = chunk.drop 448 := by
  have hctxu : (if resetDue then vadResetState v else v).context.length = 64 := by
    cases resetDue
    · simpa using hctx
    · rfl
  have key : (speechProbM v resetDue runOut chunk).2.context =
      ((if resetDue then vadResetState v else v).context ++ chunk).drop 512 := by
    unfold speechProbM
    rw [if_neg (by simp [hlen])]
    cases runOut <;> rfl
  refine ⟨rfl, rfl, key, ?_⟩
  have h1 : (if resetDue then vadResetState v else v).context.drop 512 = [] :=
    List.drop_eq_nil_of_le (by rw [hctxu]; norm_num)
  rw [key, List.drop_append_eq_append_drop, h1, hctxu]
  simp

theorem pendingStep_seg (cfg : EngineCfg) (cb : Reg) (b : Bool) (st : EngineState) :
    (pendingStep cfg cb b st).1.seg = st.seg := by
  unfold pendingStep
  dsimp only
  split_ifs <;> rfl

theorem pendingStep_events (cfg : EngineCfg) (cb : Reg) (b : Bool) (st : EngineState) :
    (pendingStep cfg cb b st).2 = [] ∨ (pendingStep cfg cb b st).2 = [Event.speechEnd] := by
  unfold pendingStep
  dsimp only
  split_ifs <;> simp

theorem pendingStep_not_pending (cfg : EngineCfg) (cb : Reg) (b : Bool) (st : EngineState)
    (h : st.turnPending = false) : pendingStep cfg cb b st = (st, []) := by
  unfold pendingStep
  simp [h]

theorem emitLoop_events (seg : List Int) (n k : Nat) :
    ∀ e ∈ (emitLoop seg n k).1, ∃ sl, e = Event.segmentReady sl := by
  induction k using emitLoop.induct seg n with
  | case1 x h ih =>
    rw [emitLoop]
    simp only [dif_pos h]
    intro e he
    rcases List.mem_cons.mp he with h1 | h2
    · exact ⟨_, h1⟩
    · exact ih e h2
  | case2 x h =>
    rw [emitLoop]
    simp [dif_neg h]

theorem speechProbM_ok_fst (v : VadState) (rd : Bool) (pr : ℚ × List ℚ) (chunk : Chunk)
    (hlen : chunk.length = 512) :
    (speechProbM v rd (.ok pr) chunk).1 = .ok pr.1 := by
  unfold speechProbM
  rw [if_neg (by simp [hlen])]

theorem speechProbM_err_fst (v : VadState) (rd : Bool) (e : EngineError) (chunk : Chunk)
    (hlen : chunk.length = 512) :
    (speechProbM v rd (.error e) chunk).1 = .error e := by
  unfold speechProbM
  rw [if_neg (by simp [hlen])]

/-- The main (open, listening, well-sized, VAD-succeeded) path of `pushPCM`,
expressed through its block functions. -/
theorem pushPCM_ok_eq (cfg : EngineCfg) (cb : Reg) (rd : Bool) (pr : ℚ × List ℚ)
    (turnOut : Except EngineError ℚ) (st : EngineState) (chunk : Chunk)
    (hclosed : st.closed = false) (hlist : st.listening = true) (hlen : chunk.length = 512) :
    pushPCM cfg cb rd (.ok pr) turnOut st chunk =
      (let st0 : EngineState := { st with vad := (speechProbM st.vad rd (.ok pr) chunk).2 }
       let isSpeech := decide (pr.1 > cfg.vadThreshold)
       let p1 := pendingStep cfg cb isSpeech st0
       let rs := processChunk p1.1.seg isSpeech chunk
       let st2 : EngineState := { p1.1 with seg := rs.2 }
       let st3 := if rs.1.Started then { st2 with segmentEmittedSoFar := 0 } else st2
       let startEvs :=
         if rs.1.Started ∧ ¬st3.turnPending ∧ cb.onSpeechStart then [Event.speechStart] else []
       let chunkEvs := if cb.onChunk then [Event.chunkEv chunk] else []
       let emitPart : EngineState × List Event :=
         if rs.1.Segment.length > 0 ∧ cfg.segmentEmitSamples > 0 ∧ cb.onSegmentReady then
           ({ st3 with segmentEmittedSoFar :=
                (emitLoop rs.1.Segment cfg.segmentEmitSamples st3.segmentEmittedSoFar).2 },
            (emitLoop rs.1.Segment cfg.segmentEmitSamples st3.segmentEmittedSoFar).1)
         else (st3, [])
       let ep := endStep cfg cb turnOut rs.1 emitPart.1
       (none, ep.1, p1.2 ++ startEvs ++ chunkEvs ++ emitPart.2 ++ ep.2)) := by
  unfold pushPCM
  rw [if_neg (by simp [hclosed]), if_neg (by simp [hlen]), if_neg (by simp [hlist])]
  dsimp only
  rw [speechProbM_ok_fst st.vad rd pr chunk hlen]

theorem pushPCM_vad_error (cfg : EngineCfg) (cb : Reg) (rd : Bool) (e : EngineError)
    (turnOut : Except EngineError ℚ) (st : EngineState) (chunk : Chunk)
    (hclosed : st.closed = false) (hlist : st.listening = true) (hlen : chunk.length = 512) :
    pushPCM cfg cb rd (.error e) turnOut st chunk =
      (some e, { st with vad := (speechProbM st.vad rd (.error e) chunk).2 },
       if cb.onError then [Event.errorEv e] else []) := by
  unfold pushPCM
  rw [if_neg (by simp [hclosed]), if_neg (by simp [hlen]), if_neg (by simp [hlist])]
  dsimp only
  rw [speechProbM_err_fst st.vad rd e chunk hlen]

theorem turnDecision_events (cfg : EngineCfg) (cb : Reg) (t : Except EngineError ℚ)
    (seg : List Int) : ∀ e ∈ (turnDecision cfg cb t seg).2, rank e = 4 := by
  unfold turnDecision
  cases smartTurnRunM t seg with
  | error e' => intro e he; split_ifs at he <;> simp_all [rank]
  | ok r => intro e he; split_ifs at he <;> simp_all [rank]

theorem endStep_not_ended (cfg : EngineCfg) (cb : Reg) (t : Except EngineError ℚ)
    (res : SegmentResult) (st : EngineState) (h : res.Ended = false) :
    endStep cfg cb t res st = (st, []) := by
  unfold endStep
  simp [h]

theorem endStep_events (cfg : EngineCfg) (cb : Reg) (t : Except EngineError ℚ)
    (res : SegmentResult) (st : EngineState) :
    ∃ t3 t4 t5, (endStep cfg cb t res st).2 = t3 ++ t4 ++ t5 ∧
      (∀ e ∈ t3, rank e = 3) ∧ (∀ e ∈ t4, rank e = 4) ∧ (∀ e ∈ t5, rank e = 5) := by
  by_cases hE : res.Ended = true
  · unfold endStep
    rw [if_pos hE]
    dsimp only
    refine ⟨_, _, _, rfl, ?_, ?_, ?_⟩
    · intro e he
      split_ifs at he <;> simp_all [rank]
    · by_cases hS : res.EndedBySilence = true
      · rw [if_pos hS]
        exact turnDecision_events cfg cb t res.Segment
      · rw [if_neg hS]
        simp
    · intro e he
      split_ifs at he <;> simp_all [rank]
  · rw [endStep_not_ended cfg cb t res st (by simpa using hE)]
    exact ⟨[], [], [], by simp, by simp, by simp, by simp⟩

theorem endStep_cap (cfg : EngineCfg) (cb : Reg) (t : Except EngineError ℚ)
    (res : SegmentResult) (st : EngineState)
    (hE : res.Ended = true) (hS : res.EndedBySilence = false) :
    endStep cfg cb t res st =
      ({ st with turnPending := false, turnPendingSilenceChunks := 0, segmentEmittedSoFar := 0 },
       (if res.Segment.length > st.segmentEmittedSoFar ∧ cb.onSegmentReady then
          [Event.segmentReady (res.Segment.drop st.segmentEmittedSoFar)]
        else []) ++
       (if cb.onSpeechEnd then [Event.speechEnd] else [])) := by
  unfold endStep
  simp [hE, hS]

theorem endStep_silence_low (cfg : EngineCfg) (cb : Reg) (q : ℚ)
    (res : SegmentResult) (st : EngineState)
    (hE : res.Ended = true) (hS : res.EndedBySilence = true)
    (hne : res.Segment.length ≠ 0) (hreg : cb.onTurnPrediction = true)
    (hlow : q < cfg.turnThreshold) :
    endStep cfg cb (.ok q) res st =
      ({ st with turnPending := true, turnPendingSilenceChunks := 0, segmentEmittedSoFar := 0 },
       (if res.Segment.length > st.segmentEmittedSoFar ∧ cb.onSegmentReady then
          [Event.segmentReady (res.Segment.drop st.segmentEmittedSoFar)]
        else []) ++
       [Event.turnPrediction (decide (q > mkRat 1 2)) q]) := by
  unfold endStep turnDecision smartTurnRunM
  simp [hE, hS, hne, hreg, hlow]

theorem endStep_silence_err (cfg : EngineCfg) (cb : Reg) (e : EngineError)
    (res : SegmentResult) (st : EngineState)
    (hE : res.Ended = true) (hS : res.EndedBySilence = true)
    (hne : res.Segment.length ≠ 0) :
    endStep cfg cb (.error e) res st =
      ({ st with turnPending := true, turnPendingSilenceChunks := 0, segmentEmittedSoFar := 0 },
       (if res.Segment.length > st.segmentEmittedSoFar ∧ cb.onSegmentReady then
          [Event.segmentReady (res.Segment.drop st.segmentEmittedSoFar)]
        else []) ++
       (if cb.onError then [Event.errorEv e] else [])) := by
  unfold endStep turnDecision smartTurnRunM
  simp [hE, hS, hne]

theorem processChunk_ended_segment (s : Segmenter) (b : Bool) (c : Chunk)
    (hE : (processChunk s b c).1.Ended = true) :
    (processChunk s b c).1.Segment = s.segment ++ c := by
  unfold processChunk at hE ⊢
  dsimp only at hE ⊢
  split at hE
  · simp at hE
  · split at hE
    · split at hE <;> simp_all
    · split_ifs at hE ⊢ <;> simp_all

/-- C6: when a segment is finalized by the max-duration cap
(`Ended ∧ ¬EndedBySilence`), the `PushPCM` call that finalizes it does not run
the turn classifier (its output is independent of the classifier outcome),
returns success, clears the pending-turn state, fires `OnSpeechEnd` when that
callback is registered, and fires no `OnTurnPrediction`. -/
theorem max_cap_end_skips_classifier (cfg : EngineCfg) (cb : Reg) (rd : Bool)
    (pr : ℚ × List ℚ) (t1 t2 : Except EngineError ℚ) (st : EngineState) (chunk : Chunk)
    (hclosed : st.closed = false) (hlist : st.listening = true) (hlen : chunk.length = 512)
    (hE : (processChunk st.seg (decide (pr.1 > cfg.vadThreshold)) chunk).1.Ended = true)
    (hS : (processChunk st.seg (decide (pr.1 > cfg.vadThreshold)) chunk).1.EndedBySilence = false) :
    pushPCM cfg cb rd (.ok pr) t1 st chunk = pushPCM cfg cb rd (.ok pr) t2 st chunk ∧
    (pushPCM cfg cb rd (.ok pr) t1 st chunk).1 = none ∧
    (pushPCM cfg cb rd (.ok pr) t1 st chunk).2.1.turnPending = false ∧
    (cb.onSpeechEnd = true → Event.speechEnd ∈ (pushPCM cfg cb rd (.ok pr) t1 st chunk).2.2) ∧
    (∀ b q, Event.turnPrediction b q ∉ (pushPCM cfg cb rd (.ok pr) t1 st chunk).2.2) := by
  rw [pushPCM_ok_eq cfg cb rd pr t1 st chunk hclosed hlist hlen,
      pushPCM_ok_eq cfg cb rd pr t2 st chunk hclosed hlist hlen]
  dsimp only
  rw [pendingStep_seg]
  dsimp only
  rw [endStep_cap cfg cb t1 _ _ hE hS, endStep_cap cfg cb t2 _ _ hE hS]
  refine ⟨rfl, rfl, rfl, ?_, ?_⟩
  · intro hreg
    simp [hreg]
  · intro b q hmem
    simp only [List.mem_append] at hmem
    rcases hmem with ((((h | h) | h) | h) | h)
    · rcases pendingStep_events cfg cb (decide (pr.1 > cfg.vadThreshold))
        { st with vad := (speechProbM st.vad rd (.ok pr) chunk).2 } with he | he <;>
        rw [he] at h <;> simp at h
    · split_ifs at h <;> simp at h
    · split_ifs at h <;> simp at h
    · split_ifs at h <;>
        first
          | (obtain ⟨sl, hsl⟩ := emitLoop_events _ _ _ _ h
             simp at hsl)
          | simp at h
    · rcases h with h | h <;> split_ifs at h <;> simp at h

theorem pushPCM_wrong_len (cfg : EngineCfg) (cb : Reg) (rd : Bool)
    (v : Except EngineError (ℚ × List ℚ)) (t : Except EngineError ℚ)
    (st : EngineState) (chunk : Chunk)
    (hclosed : st.closed = false) (hlen : chunk.length ≠ 512) :
    pushPCM cfg cb rd v t st chunk = (some .chunkSize, st, []) := by
  unfold pushPCM
  simp [hclosed, hlen]

theorem pushPCM_not_listening (cfg : EngineCfg) (cb : Reg) (rd : Bool)
    (v : Except EngineError (ℚ × List ℚ)) (t : Except EngineError ℚ)
    (st : EngineState) (chunk : Chunk)
    (hclosed : st.closed = false) (hlen : chunk.length = 512) (hlist : st.listening = false) :
    pushPCM cfg cb rd v t st chunk = (none, st, []) := by
  unfold pushPCM
  simp [hclosed, hlen, hlist]

set_option maxRecDepth 200000 in
/-- C6 witness at a concrete input: a max-duration-capped segment end leaves
`turnPending = false`. -/
theorem max_cap_end_skips_classifier_witness :
    (pushPCM cfg0 allCbs false (.ok (1, [])) (.ok 0) (stOf segActiveCap false) chunk3).2.1.turnPending = false :=
  (max_cap_end_skips_classifier cfg0 allCbs false (1, []) (.ok 0) (.ok 0)
    (stOf segActiveCap false) chunk3 (by decide) (by decide) (by decide)
    (by decide) (by decide)).2.2.1

/-- C3 (amended): when a segment ends by silence, the turn classifier
succeeds with probability strictly below `turnThreshold`, **and the
`OnTurnPrediction` callback is registered**, the call returns success, fires
`OnTurnPrediction`, sets `turnPending`, and — provided the engine was not
already in a pending turn (whose deferred timeout can fire an unrelated
`OnSpeechEnd` earlier in the same call) — fires no `OnSpeechEnd`.  When
`OnTurnPrediction` is not registered the probability check is skipped
entirely (see the counterexample). -/
theorem low_prob_sets_pending (cfg : EngineCfg) (cb : Reg) (rd : Bool)
    (pr : ℚ × List ℚ) (q : ℚ) (st : EngineState) (chunk : Chunk)
    (hclosed : st.closed = false) (hlist : st.listening = true) (hlen : chunk.length = 512)
    (hE : (processChunk st.seg (decide (pr.1 > cfg.vadThreshold)) chunk).1.Ended = true)
    (hS : (processChunk st.seg (decide (pr.1 > cfg.vadThreshold)) chunk).1.EndedBySilence = true)
    (hreg : cb.onTurnPrediction = true) (hlow : q < cfg.turnThreshold) :
    (pushPCM cfg cb rd (.ok pr) (.ok q) st chunk).1 = none ∧
    (pushPCM cfg cb rd (.ok pr) (.ok q) st chunk).2.1.turnPending = true ∧
    Event.turnPrediction (decide (q > mkRat 1 2)) q ∈
      (pushPCM cfg cb rd (.ok pr) (.ok q) st chunk).2.2 ∧
    (st.turnPending = false →
      Event.speechEnd ∉ (pushPCM cfg cb rd (.ok pr) (.ok q) st chunk).2.2) := by
  have hseg := processChunk_ended_segment st.seg (decide (pr.1 > cfg.vadThreshold)) chunk hE
  have hne : (processChunk st.seg (decide (pr.1 > cfg.vadThreshold)) chunk).1.Segment.length ≠ 0 := by
    rw [hseg]
    simp [hlen]
  rw [pushPCM_ok_eq cfg cb rd pr (.ok q) st chunk hclosed hlist hlen]
  dsimp only
  rw [pendingStep_seg]
  dsimp only
  rw [endStep_silence_low cfg cb q _ _ hE hS hne hreg hlow]
  refine ⟨rfl, rfl, ?_, ?_⟩
  · simp
  · intro hp hmem
    rw [pendingStep_not_pending cfg cb (decide (pr.1 > cfg.vadThreshold))
        { st with vad := (speechProbM st.vad rd (Except.ok pr) chunk).2 } hp] at hmem
    dsimp only at hmem
    simp only [List.mem_append] at hmem
    rcases hmem with ((((h | h) | h) | h) | h | h)
    · simp at h
    · split_ifs at h <;> simp at h
    · split_ifs at h <;> simp at h
    · split_ifs at h <;>
        first
          | (obtain ⟨sl, hsl⟩ := emitLoop_events _ _ _ _ h
             simp at hsl)
          | simp at h
    · split_ifs at h <;> simp at h
    · simp at h

set_option maxRecDepth 400000 in
/-- C3 counterexample: same silence-ended segment, classifier succeeds with
probability 0 < turnThreshold = 1, but `OnTurnPrediction` is **not**
registered: the probability check is skipped, `turnPending` stays false and
`OnSpeechEnd` fires — contradicting "regardless of which callbacks are
registered". -/
theorem low_prob_pending_cex :
    (processChunk segActiveSil false chunk0).1.Ended = true ∧
    (processChunk segActiveSil false chunk0).1.EndedBySilence = true ∧
    ((0:ℚ) < cfg0.turnThreshold) ∧
    noTurnCb.onSpeechEnd = true ∧
    (pushPCM cfg0 noTurnCb false (.ok (0, [])) (.ok 0) (stOf segActiveSil false) chunk0).1 = none ∧
    (pushPCM cfg0 noTurnCb false (.ok (0, [])) (.ok 0) (stOf segActiveSil false) chunk0).2.1.turnPending = false ∧
    Event.speechEnd ∈
      (pushPCM cfg0 noTurnCb false (.ok (0, [])) (.ok 0) (stOf segActiveSil false) chunk0).2.2 := by
  decide

set_option maxRecDepth 400000 in
/-- C3 witness at a concrete input: with `OnTurnPrediction` registered, the
low-probability silence end sets `turnPending`. -/
theorem low_prob_sets_pending_witness :
    (pushPCM cfg0 allCbs false (.ok (0, [])) (.ok 0) (stOf segActiveSil false) chunk0).2.1.turnPending = true :=
  (low_prob_sets_pending cfg0 allCbs false (0, []) 0 (stOf segActiveSil false) chunk0
    (by decide) (by decide) (by decide) (by decide) (by decide) (by decide) (by decide)).2.1

/-- C4 (amended): error routing in `PushPCM`.  A chunk-size mismatch is
returned but **not** delivered to `OnError` (trace stays empty, state
untouched).  A VAD inference failure is both returned and delivered to
`OnError` (only the VAD context, already updated before the inference call,
changes).  A turn-classifier failure on a silence-ended segment is delivered
to `OnError` but `PushPCM` returns success; the engine enters the
pending-turn state and remains able to process subsequent frames. -/
theorem pushPCM_error_policy (cfg : EngineCfg) (cb : Reg) (rd : Bool)
    (st : EngineState) (chunk : Chunk)
    (hclosed : st.closed = false) (hlist : st.listening = true) :
    (∀ v t, chunk.length ≠ 512 →
      pushPCM cfg cb rd v t st chunk = (some .chunkSize, st, [])) ∧
    (∀ (e : EngineError) (t : Except EngineError ℚ), chunk.length = 512 →
      pushPCM cfg cb rd (.error e) t st chunk =
        (some e, { st with vad := (speechProbM st.vad rd (.error e) chunk).2 },
         if cb.onError then [Event.errorEv e] else [])) ∧
    (∀ (pr : ℚ × List ℚ) (e : EngineError), chunk.length = 512 →
      (processChunk st.seg (decide (pr.1 > cfg.vadThreshold)) chunk).1.Ended = true →
      (processChunk st.seg (decide (pr.1 > cfg.vadThreshold)) chunk).1.EndedBySilence = true →
      (pushPCM cfg cb rd (.ok pr) (.error e) st chunk).1 = none ∧
      (cb.onError = true →
        Event.errorEv e ∈ (pushPCM cfg cb rd (.ok pr) (.error e) st chunk).2.2) ∧
      (pushPCM cfg cb rd (.ok pr) (.error e) st chunk).2.1.turnPending = true) := by
  refine ⟨?_, ?_, ?_⟩
  · intro v t hlen
    exact pushPCM_wrong_len cfg cb rd v t st chunk hclosed hlen
  · intro e t hlen
    exact pushPCM_vad_error cfg cb rd e t st chunk hclosed hlist hlen
  · intro pr e hlen hE hS
    have hseg := processChunk_ended_segment st.seg (decide (pr.1 > cfg.vadThreshold)) chunk hE
    have hne : (processChunk st.seg (decide (pr.1 > cfg.vadThreshold)) chunk).1.Segment.length ≠ 0 := by
      rw [hseg]
      simp [hlen]
    rw [pushPCM_ok_eq cfg cb rd pr (.error e) st chunk hclosed hlist hlen]
    dsimp only
    rw [pendingStep_seg]
    dsimp only
    rw [endStep_silence_err cfg cb e _ _ hE hS hne]
    refine ⟨rfl, ?_, rfl⟩
    intro hereg
    simp [hereg]

set_option maxRecDepth 400000 in
/-- C4 counterexample: with `OnError` registered, a chunk-size mismatch is
returned from `PushPCM` but produces an empty trace (no `OnError`), and a
turn-classifier failure on a silence-ended segment makes `PushPCM` return
success (`none`) instead of the error. -/
theorem error_policy_cex :
    allCbs.onError = true ∧
    pushPCM cfg0 allCbs false (.ok (0, [])) (.ok 0) (stOf segIdle1 false) [] =
      (some .chunkSize, stOf segIdle1 false, []) ∧
    (pushPCM cfg0 allCbs false (.ok (0, [])) (.error (.inference 7))
      (stOf segActiveSil false) chunk0).1 = none ∧
    Event.errorEv (.inference 7) ∈
      (pushPCM cfg0 allCbs false (.ok (0, [])) (.error (.inference 7))
        (stOf segActiveSil false) chunk0).2.2 := by
  decide

set_option maxRecDepth 400000 in
/-- C4 witness at a concrete input: a VAD inference failure is both returned
and delivered to `OnError`. -/
theorem pushPCM_error_policy_witness :
    pushPCM cfg0 allCbs false (.error (.inference 3)) (.ok 0) (stOf segIdle1 false) chunk0 =
      (some (.inference 3),
       { stOf segIdle1 false with
         vad := (speechProbM (stOf segIdle1 false).vad false (.error (.inference 3)) chunk0).2 },
       if allCbs.onError then [Event.errorEv (.inference 3)] else []) :=
  (pushPCM_error_policy cfg0 allCbs false (stOf segIdle1 false) chunk0
    (by decide) (by decide)).2.1 (.inference 3) (.ok 0) (by decide)

theorem traceOrdered_nil : TraceOrdered [] := List.Pairwise.nil

theorem traceOrdered_append (l1 l2 : List Event) (k : Nat)
    (h1 : TraceOrdered l1) (h2 : TraceOrdered l2)
    (hb1 : ∀ e ∈ l1, rank e ≤ k) (hb2 : ∀ e ∈ l2, k ≤ rank e) :
    TraceOrdered (l1 ++ l2) := by
  unfold TraceOrdered at *
  rw [List.pairwise_append]
  exact ⟨h1, h2, fun a ha b hb => le_trans (hb1 a ha) (hb2 b hb)⟩

theorem traceOrdered_of_const (l : List Event) (k : Nat) (h : ∀ e ∈ l, rank e = k) :
    TraceOrdered l := by
  induction l with
  | nil => exact List.Pairwise.nil
  | cons a t ih =>
    refine List.Pairwise.cons ?_ (ih (fun e he => h e (List.mem_cons_of_mem a he)))
    intro b hb
    rw [h a (List.mem_cons_self a t), h b (List.mem_cons_of_mem a hb)]

theorem endStep_trace_ordered (cfg : EngineCfg) (cb : Reg) (t : Except EngineError ℚ)
    (res : SegmentResult) (st : EngineState) :
    TraceOrdered (endStep cfg cb t res st).2 ∧
    ∀ e ∈ (endStep cfg cb t res st).2, 3 ≤ rank e := by
  obtain ⟨t3, t4, t5, heq, h3, h4, h5⟩ := endStep_events cfg cb t res st
  rw [heq]
  constructor
  · refine traceOrdered_append _ _ 4 ?_ (traceOrdered_of_const _ 5 h5) ?_ ?_
    · refine traceOrdered_append _ _ 4 (traceOrdered_of_const _ 3 h3)
        (traceOrdered_of_const _ 4 h4) ?_ ?_
      · intro e he
        rw [h3 e he]
        omega
      · intro e he
        rw [h4 e he]
    · intro e he
      rcases List.mem_append.mp he with h | h
      · rw [h3 e h]
        omega
      · rw [h4 e h]
    · intro e he
      rw [h5 e he]
      omega
  · intro e he
    rcases List.mem_append.mp he with h | h
    · rcases List.mem_append.mp h with h' | h'
      · rw [h3 e h']
      · rw [h4 e h']
        omega
    · rw [h5 e h]
      omega

/-- C5 (amended): within one `PushPCM` call the trace is an optional leading
deferred `OnSpeechEnd` — fired by the pending-turn timeout before any other
callback of the call — followed by callbacks in non-decreasing dispatch rank:
`OnSpeechStart`, `OnChunk`, `OnSegmentReady`*, `OnError`/`OnTurnPrediction`,
`OnSpeechEnd`.  The spec's claimed order holds for every call in which the
deferred timeout does not fire. -/
theorem pushPCM_trace_order (cfg : EngineCfg) (cb : Reg) (rd : Bool)
    (vadOut : Except EngineError (ℚ × List ℚ)) (turnOut : Except EngineError ℚ)
    (st : EngineState) (chunk : Chunk) :
    ∃ pre rest, (pushPCM cfg cb rd vadOut turnOut st chunk).2.2 = pre ++ rest ∧
      (pre = [] ∨ pre = [Event.speechEnd]) ∧ TraceOrdered rest := by
  by_cases hclosed : st.closed = true
  · rw [pushPCM_on_closed cfg cb rd vadOut turnOut st chunk hclosed]
    exact ⟨[], [], rfl, Or.inl rfl, traceOrdered_nil⟩
  have hclosed' : st.closed = false := by simpa using hclosed
  by_cases hlen : chunk.length = 512
  case neg =>
    rw [pushPCM_wrong_len cfg cb rd vadOut turnOut st chunk hclosed' hlen]
    exact ⟨[], [], rfl, Or.inl rfl, traceOrdered_nil⟩
  by_cases hlist : st.listening = true
  case neg =>
    have hlist' : st.listening = false := by simpa using hlist
    rw [pushPCM_not_listening cfg cb rd vadOut turnOut st chunk hclosed' hlen hlist']
    exact ⟨[], [], rfl, Or.inl rfl, traceOrdered_nil⟩
  cases vadOut with
  | error e =>
    rw [pushPCM_vad_error cfg cb rd e turnOut st chunk hclosed' hlist hlen]
    refine ⟨[], if cb.onError then [Event.errorEv e] else [], rfl, Or.inl rfl, ?_⟩
    refine traceOrdered_of_const _ 4 ?_
    intro x hx
    split_ifs at hx <;> simp_all [rank]
  | ok pr =>
    rw [pushPCM_ok_eq cfg cb rd pr turnOut st chunk hclosed' hlist hlen]
    dsimp only
    simp only [List.append_assoc]
    refine ⟨_, _, rfl, pendingStep_events cfg cb _ _, ?_⟩
    have rank1 : ∀ (e : Event), 1 ≤ rank e := by
      intro e
      cases e <;> simp [rank]
    refine traceOrdered_append _ _ 1 ?_ ?_ ?_ ?_
    · refine traceOrdered_of_const _ 1 ?_
      intro e he
      split_ifs at he <;> simp_all [rank]
    · refine traceOrdered_append _ _ 2 ?_ ?_ ?_ ?_
      · refine traceOrdered_of_const _ 2 ?_
        intro e he
        split_ifs at he <;> simp_all [rank]
      · refine traceOrdered_append _ _ 3 ?_ ?_ ?_ ?_
        · refine traceOrdered_of_const _ 3 ?_
          intro e he
          split_ifs at he <;>
            first
              | (obtain ⟨sl, hsl⟩ := emitLoop_events _ _ _ _ he
                 rw [hsl]
                 rfl)
              | simp at he
        · exact (endStep_trace_ordered cfg cb turnOut _ _).1
        · intro e he
          split_ifs at he <;>
            first
              | (obtain ⟨sl, hsl⟩ := emitLoop_events _ _ _ _ he
                 rw [hsl]
                 simp [rank])
              | simp at he
        · exact (endStep_trace_ordered cfg cb turnOut _ _).2
      · intro e he
        split_ifs at he <;> simp_all [rank]
      · intro e he
        rcases List.mem_append.mp he with h | h
        · split_ifs at h <;>
            first
              | (obtain ⟨sl, hsl⟩ := emitLoop_events _ _ _ _ h
                 rw [hsl]
                 simp [rank])
              | simp at h
        · have := (endStep_trace_ordered cfg cb turnOut _ _).2 e h
          omega
    · intro e he
      split_ifs at he <;> simp_all [rank]
    · intro e _
      exact rank1 e

set_option maxRecDepth 400000 in
/-- C5 counterexample: a pending-turn timeout fires the deferred
`OnSpeechEnd` before `OnChunk` within the same `PushPCM` call, so the trace
`[OnSpeechEnd, OnChunk]` violates the claimed dispatch order. -/
theorem callback_order_cex :
    allCbs.onChunk = true ∧ allCbs.onSpeechEnd = true ∧
    (pushPCM cfg0 allCbs false (.ok (0, [])) (.ok 0) (stOf segIdle1 true) chunk0).2.2 =
      [Event.speechEnd, Event.chunkEv chunk0] ∧
    ¬ClaimOrderedTrace
      (pushPCM cfg0 allCbs false (.ok (0, [])) (.ok 0) (stOf segIdle1 true) chunk0).2.2 := by
  have h : (pushPCM cfg0 allCbs false (.ok (0, [])) (.ok 0) (stOf segIdle1 true) chunk0).2.2 =
      [Event.speechEnd, Event.chunkEv chunk0] := by decide
  refine ⟨rfl, rfl, h, ?_⟩
  rw [h]
  unfold ClaimOrderedTrace
  decide

theorem ring_last_idx (i c' P : Nat) (hi : i < P) (hc1 : 1 ≤ c') (hcP : c' ≤ P) :
    (((i + 1) % P + P - c') % P + (c' - 1)) % P = i := by
  rcases Nat.lt_or_ge (i + 1) P with hA | hB
  · rw [Nat.mod_eq_of_lt hA, Nat.mod_add_mod,
      show i + 1 + P - c' + (c' - 1) = P + i by omega, Nat.add_mod_left]
    exact Nat.mod_eq_of_lt hi
  · have hiP : i + 1 = P := by omega
    rw [hiP, Nat.mod_self, Nat.mod_add_mod,
      show 0 + P - c' + (c' - 1) = P - 1 by omega,
      Nat.mod_eq_of_lt (by omega)]
    omega

/-- C1 (amended): on the frame that triggers the Idle→InSegment transition,
the triggering frame is first pushed into the pre-speech ring and the segment
is then built as all occupied ring slots oldest-first followed by the
triggering frame again — so the segment ends with the triggering frame
**twice** (the ring's newest entry, then the explicit append), not once. -/
theorem trigger_frame_appears_twice (s : Segmenter) (chunk : Chunk)
    (hpre : 1 ≤ s.cfg.preChunks) (hring : s.preBuffer.length = s.cfg.preChunks)
    (hidx : s.preBufIdx < s.cfg.preChunks) (hcount : s.preBufCount ≤ s.cfg.preChunks)
    (hidle : s.speechActive = false) (hlen : chunk.length = s.cfg.chunkSize) :
    (processChunk s true chunk).1.Started = true ∧
    ∃ pre, (processChunk s true chunk).1.Segment = pre ++ chunk ++ chunk := by
  have hlt : s.preBufIdx < s.preBuffer.length := by
    rw [hring]
    exact hidx
  have hget : (s.preBuffer.set s.preBufIdx (some chunk)).getD s.preBufIdx none = some chunk := by
    simp [List.getD_eq_getElem?_getD, List.getElem?_set_self', hlt]
  unfold processChunk
  rw [if_neg (by simp [hlen])]
  simp only [hidle, Bool.not_false, if_true]
  refine ⟨?_, ?_⟩
  · by_cases hcc : s.preBufCount < s.cfg.preChunks <;> simp [hcc]
  unfold buildSegmentWithChunk
  by_cases hcc : s.preBufCount < s.cfg.preChunks
  · simp only [hcc, if_true]
    rw [List.range_succ, List.foldl_append]
    dsimp only [List.foldl]
    have hlast : (((s.preBufIdx + 1) % s.cfg.preChunks + s.cfg.preChunks -
        (s.preBufCount + 1)) % s.cfg.preChunks + s.preBufCount) % s.cfg.preChunks =
        s.preBufIdx := by
      simpa using ring_last_idx s.preBufIdx (s.preBufCount + 1) s.cfg.preChunks hidx
        (by omega) (by omega)
    rw [hlast, hget]
    exact ⟨_, rfl⟩
  · obtain ⟨k, hk⟩ : ∃ k, s.preBufCount = k + 1 := ⟨s.preBufCount - 1, by omega⟩
    simp only [hcc, if_false]
    rw [hk, List.range_succ, List.foldl_append]
    dsimp only [List.foldl]
    have hlast : (((s.preBufIdx + 1) % s.cfg.preChunks + s.cfg.preChunks -
        (k + 1)) % s.cfg.preChunks + k) % s.cfg.preChunks = s.preBufIdx := by
      simpa using ring_last_idx s.preBufIdx (k + 1) s.cfg.preChunks hidx
        (by omega) (by omega)
    rw [hlast, hget]
    exact ⟨_, rfl⟩

theorem mkSegmenter_cex1_eq : mkSegmenter 16000 512 0 32 8 =
    { cfg := ⟨1, 1, 250, 512⟩, preBuffer := [none], preBufIdx := 0, preBufCount := 0,
      segment := [], speechActive := false, trailingChunks := 0, sinceTrigger := 0 } := by
  simp only [mkSegmenter, ceilDiv]
  norm_num
  decide

theorem mkSegmenter_cex2_eq : mkSegmenter 16000 512 0 1000 (1/32) =
    { cfg := ⟨1, 32, 1, 512⟩, preBuffer := [none], preBufIdx := 0, preBufCount := 0,
      segment := [], speechActive := false, trailingChunks := 0, sinceTrigger := 0 } := by
  simp only [mkSegmenter, ceilDiv]
  norm_num
  decide

set_option maxRecDepth 20000 in
/-- C1 counterexample: `newSegmenter(16000, 512, 0, 32, 8)` fed a speech
frame of nines and then silence finalizes the segment
`nines ++ nines ++ silence`: the triggering frame (the nines) appears twice,
not once, because the trigger is pushed into the pre-speech ring before the
segment is built from the ring and is then appended once more. -/
theorem trigger_frame_once_cex :
    ((runSegmenter (mkSegmenter 16000 512 0 32 8)
        [(true, List.replicate 512 9), (false, chunk0)]).1.getD 1 {}).Ended = true ∧
    ((runSegmenter (mkSegmenter 16000 512 0 32 8)
        [(true, List.replicate 512 9), (false, chunk0)]).1.getD 1 {}).EndedBySilence = true ∧
    ((runSegmenter (mkSegmenter 16000 512 0 32 8)
        [(true, List.replicate 512 9), (false, chunk0)]).1.getD 1 {}).Segment =
      List.replicate 512 9 ++ List.replicate 512 9 ++ chunk0 ∧
    ((runSegmenter (mkSegmenter 16000 512 0 32 8)
        [(true, List.replicate 512 9), (false, chunk0)]).1.getD 1 {}).Segment.count 9 =
      1024 := by
  rw [mkSegmenter_cex1_eq]
  norm_num [runSegmenter, processChunk, buildSegmentWithChunk, segReset, chunk0,
    List.range_succ, List.count_append, List.count_replicate]

set_option maxRecDepth 20000 in
/-- C1 witness at a concrete input for the amended statement: the segment
built on the triggering frame ends with that frame twice. -/
theorem trigger_frame_appears_twice_witness :
    (processChunk segIdle1 true chunk3).1.Started = true ∧
    ∃ pre, (processChunk segIdle1 true chunk3).1.Segment = pre ++ chunk3 ++ chunk3 :=
  trigger_frame_appears_twice segIdle1 chunk3 (by decide) (by decide) (by decide)
    (by decide) (by decide) (by decide)

theorem processChunk_cfg (s : Segmenter) (b : Bool) (c : Chunk) :
    (processChunk s b c).2.cfg = s.cfg := by
  unfold processChunk segReset
  dsimp only
  split_ifs <;> rfl

theorem ring_foldl_length (buf : List (Option Chunk)) (cs : Nat) (g : Nat → Nat)
    (hb : ∀ c ∈ buf, ∀ ch, c = some ch → ch.length = cs) :
    ∀ (idxs : List Nat) (init : List Int),
      (idxs.foldl (fun seg i =>
        match buf.getD (g i) none with
        | some ch => seg ++ ch
        | none => seg) init).length ≤ init.length + idxs.length * cs := by
  have hb' : ∀ j ch, buf.getD j none = some ch → ch.length = cs := by
    intro j ch hj
    rcases Nat.lt_or_ge j buf.length with hlt | hge
    · have heq : buf.getD j none = buf[j] := by
        simp [List.getD_eq_getElem?_getD, List.getElem?_eq_getElem hlt]
      rw [heq] at hj
      exact hb buf[j] (List.getElem_mem hlt) ch hj
    · have heq : buf.getD j none = none := by
        simp [List.getD_eq_getElem?_getD, List.getElem?_eq_none hge]
      rw [heq] at hj
      cases hj
  intro idxs
  induction idxs with
  | nil =>
    intro init
    simp
  | cons i t ih =>
    intro init
    simp only [List.foldl_cons, List.length_cons, Nat.succ_mul]
    rcases hgi : buf.getD (g i) none with _ | ch
    · have h1 := ih init
      exact le_trans h1 (Nat.add_le_add_left (Nat.le_add_right _ _) _)
    · have h1 := ih (init ++ ch)
      rw [List.length_append, hb' (g i) ch hgi] at h1
      calc (t.foldl _ (init ++ ch)).length
          ≤ init.length + cs + t.length * cs := h1
        _ = init.length + (t.length * cs + cs) := by ring
  
theorem buildSegmentWithChunk_length_le (s : Segmenter) (fc : Chunk)
    (hb : ∀ c ∈ s.preBuffer, ∀ ch, c = some ch → ch.length = s.cfg.chunkSize) :
    (buildSegmentWithChunk s fc).length ≤ s.preBufCount * s.cfg.chunkSize + fc.length := by
  unfold buildSegmentWithChunk
  dsimp only
  rw [List.length_append]
  have h := ring_foldl_length s.preBuffer s.cfg.chunkSize
    (fun i => ((s.preBufIdx + s.cfg.preChunks - s.preBufCount) % s.cfg.preChunks + i) % s.cfg.preChunks)
    hb (List.range s.preBufCount) []
  simp only [List.length_range, List.length_nil, Nat.zero_add] at h
  exact Nat.add_le_add_right h _

theorem since_succ_le (m t : Nat) (h : t ≤ Nat.max 1 (m - 1)) : t + 1 ≤ Nat.max 2 m := by
  rcases Nat.le_total m 2 with hm | hm
  · have h1 : Nat.max 1 (m - 1) = 1 := Nat.max_eq_left (by omega)
    have h2 : 2 ≤ Nat.max 2 m := Nat.le_max_left 2 m
    omega
  · have h1 : Nat.max 1 (m - 1) = m - 1 := Nat.max_eq_right (by omega)
    have h2 : Nat.max 2 m = m := Nat.max_eq_right hm
    omega

theorem trigger_segment_bound (t : Segmenter) (c : Chunk)
    (hb : ∀ x ∈ t.preBuffer, ∀ ch, x = some ch → ch.length = t.cfg.chunkSize)
    (hlen : c.length = t.cfg.chunkSize) (hcount : t.preBufCount ≤ t.cfg.preChunks) :
    (buildSegmentWithChunk t c).length ≤ (t.cfg.preChunks + 1) * t.cfg.chunkSize := by
  refine le_trans (buildSegmentWithChunk_length_le t c hb) ?_
  rw [hlen]
  calc t.preBufCount * t.cfg.chunkSize + t.cfg.chunkSize
      ≤ t.cfg.preChunks * t.cfg.chunkSize + t.cfg.chunkSize :=
        Nat.add_le_add_right (Nat.mul_le_mul_right _ hcount) _
    _ = (t.cfg.preChunks + 1) * t.cfg.chunkSize := by ring

theorem segReset_WF (s : Segmenter) (hpre : 1 ≤ s.cfg.preChunks)
    (hring : s.preBuffer.length = s.cfg.preChunks) : SegWF (segReset s) := by
  refine ⟨hpre, ?_, by simpa using hpre, by simp [segReset], ?_, by simp [segReset]⟩
  · simp [segReset, hring]
  · intro c hc ch hch
    simp only [segReset, List.mem_map] at hc
    obtain ⟨x, _, hx⟩ := hc
    rw [← hx] at hch
    cases hch

theorem processChunk_WF (s : Segmenter) (b : Bool) (c : Chunk) (hwf : SegWF s) :
    SegWF (processChunk s b c).2 ∧
    ((processChunk s b c).1.Ended = true →
      (processChunk s b c).1.Segment.length ≤
        (s.cfg.preChunks + Nat.max 2 s.cfg.maxChunks) * s.cfg.chunkSize) := by
  obtain ⟨hpre, hring, hidx, hcount, hslots, hactive⟩ := hwf
  unfold processChunk
  by_cases hlen : c.length = s.cfg.chunkSize
  case neg =>
    rw [if_pos (by simpa using hlen)]
    exact ⟨⟨hpre, hring, hidx, hcount, hslots, hactive⟩, by simp⟩
  rw [if_neg (by simp [hlen])]
  have hslots' : ∀ x ∈ s.preBuffer.set s.preBufIdx (some c), ∀ ch, x = some ch →
      ch.length = s.cfg.chunkSize := by
    intro x hx ch hch
    rcases List.mem_or_eq_of_mem_set hx with hmem | heq
    · exact hslots x hmem ch hch
    · rw [heq] at hch
      cases hch
      exact hlen
  by_cases hact : s.speechActive = true
  case neg =>
    have hact' : s.speechActive = false := by simpa using hact
    simp only [hact', Bool.not_false, if_true]
    by_cases hb : b = true
    · simp only [hb, if_true]
      constructor
      · by_cases hcc : s.preBufCount < s.cfg.preChunks
        · simp only [hcc, if_true]
          refine ⟨hpre, by simpa using hring, ?_,
            show s.preBufCount + 1 ≤ s.cfg.preChunks by omega, hslots', ?_⟩
          · exact Nat.mod_lt _ (by omega)
          · intro _
            refine ⟨?_, le_refl 1, Nat.le_max_left 1 _⟩
            exact trigger_segment_bound
              { s with
                preBuffer := s.preBuffer.set s.preBufIdx (some c)
                preBufIdx := (s.preBufIdx + 1) % s.cfg.preChunks
                preBufCount := s.preBufCount + 1
                speechActive := true, trailingChunks := 0, sinceTrigger := 1 } c
              hslots' hlen (show s.preBufCount + 1 ≤ s.cfg.preChunks by omega)
        · simp only [hcc, if_false]
          refine ⟨hpre, by simpa using hring, ?_,
            show s.preBufCount ≤ s.cfg.preChunks from hcount, hslots', ?_⟩
          · exact Nat.mod_lt _ (by omega)
          · intro _
            refine ⟨?_, le_refl 1, Nat.le_max_left 1 _⟩
            exact trigger_segment_bound
              { s with
                preBuffer := s.preBuffer.set s.preBufIdx (some c)
                preBufIdx := (s.preBufIdx + 1) % s.cfg.preChunks
                speechActive := true, trailingChunks := 0, sinceTrigger := 1 } c
              hslots' hlen hcount
      · by_cases hcc : s.preBufCount < s.cfg.preChunks <;> simp [hcc]
    · simp only [hb, if_false]
      constructor
      · by_cases hcc : s.preBufCount < s.cfg.preChunks
        · simp only [hcc, if_true]
          refine ⟨hpre, by simpa using hring, ?_,
            show s.preBufCount + 1 ≤ s.cfg.preChunks by omega, hslots', ?_⟩
          · exact Nat.mod_lt _ (by omega)
          · intro hfalse
            exact absurd hfalse Bool.false_ne_true
        · simp only [hcc, if_false]
          refine ⟨hpre, by simpa using hring, ?_,
            show s.preBufCount ≤ s.cfg.preChunks from hcount, hslots', ?_⟩
          · exact Nat.mod_lt _ (by omega)
          · intro hfalse
            exact absurd hfalse Bool.false_ne_true
      · by_cases hcc : s.preBufCount < s.cfg.preChunks <;> simp [hcc]
  · obtain ⟨hseglen, hsince1, hsinceMax⟩ := hactive hact
    simp only [hact, Bool.not_true, Bool.false_eq_true, if_false]
    have hend : s.segment.length + s.cfg.chunkSize ≤
        (s.cfg.preChunks + Nat.max 2 s.cfg.maxChunks) * s.cfg.chunkSize := by
      calc s.segment.length + s.cfg.chunkSize
          ≤ (s.cfg.preChunks + s.sinceTrigger) * s.cfg.chunkSize + s.cfg.chunkSize :=
            Nat.add_le_add_right hseglen _
        _ = (s.cfg.preChunks + s.sinceTrigger + 1) * s.cfg.chunkSize := by ring
        _ ≤ (s.cfg.preChunks + Nat.max 2 s.cfg.maxChunks) * s.cfg.chunkSize := by
            refine Nat.mul_le_mul_right _ ?_
            have hsucc := since_succ_le s.cfg.maxChunks s.sinceTrigger hsinceMax
            omega
    have hcont : s.segment.length + s.cfg.chunkSize ≤
        (s.cfg.preChunks + (s.sinceTrigger + 1)) * s.cfg.chunkSize := by
      calc s.segment.length + s.cfg.chunkSize
          ≤ (s.cfg.preChunks + s.sinceTrigger) * s.cfg.chunkSize + s.cfg.chunkSize :=
            Nat.add_le_add_right hseglen _
        _ = (s.cfg.preChunks + (s.sinceTrigger + 1)) * s.cfg.chunkSize := by ring
    by_cases hb : b = true
    · simp only [hb, if_true]
      split_ifs with h1 h2
      · refine ⟨segReset_WF _ hpre hring, ?_⟩
        intro _
        show (s.segment ++ c).length ≤ _
        rw [List.length_append, hlen]
        exact hend
      · refine ⟨segReset_WF _ hpre hring, ?_⟩
        intro _
        show (s.segment ++ c).length ≤ _
        rw [List.length_append, hlen]
        exact hend
      · refine ⟨⟨hpre, hring, hidx, hcount, hslots, ?_⟩, by simp⟩
        intro _
        refine ⟨?_, ?_, ?_⟩
        · show (s.segment ++ c).length ≤ (s.cfg.preChunks + (s.sinceTrigger + 1)) * s.cfg.chunkSize
          rw [List.length_append, hlen]
          exact hcont
        · show 1 ≤ s.sinceTrigger + 1
          omega
        · show s.sinceTrigger + 1 ≤ Nat.max 1 (s.cfg.maxChunks - 1)
          have h2' : ¬ s.sinceTrigger + 1 ≥ s.cfg.maxChunks := h2
          exact le_trans (by omega) (Nat.le_max_right 1 (s.cfg.maxChunks - 1))
    · simp only [hb, Bool.false_eq_true, if_false]
      split_ifs with h1 h2
      · refine ⟨segReset_WF _ hpre hring, ?_⟩
        intro _
        show (s.segment ++ c).length ≤ _
        rw [List.length_append, hlen]
        exact hend
      · refine ⟨segReset_WF _ hpre hring, ?_⟩
        intro _
        show (s.segment ++ c).length ≤ _
        rw [List.length_append, hlen]
        exact hend
      · refine ⟨⟨hpre, hring, hidx, hcount, hslots, ?_⟩, by simp⟩
        intro _
        refine ⟨?_, ?_, ?_⟩
        · show (s.segment ++ c).length ≤ (s.cfg.preChunks + (s.sinceTrigger + 1)) * s.cfg.chunkSize
          rw [List.length_append, hlen]
          exact hcont
        · show 1 ≤ s.sinceTrigger + 1
          omega
        · show s.sinceTrigger + 1 ≤ Nat.max 1 (s.cfg.maxChunks - 1)
          have h2' : ¬ s.sinceTrigger + 1 ≥ s.cfg.maxChunks := h2
          exact le_trans (by omega) (Nat.le_max_right 1 (s.cfg.maxChunks - 1))

set_option maxRecDepth 40000 in
/-- C2 counterexample: with `newSegmenter(16000, 512, 0, 1000, 1/32)`
(so `maxChunks = 1`), two speech frames finalize a segment of 1536 samples
with `Ended = true` and `EndedBySilence = false`, exceeding the claimed
`maxChunks * 512 = 512` bound: the cap check fires only on frames after the
trigger, and the segment by then already holds the ring contents, the
trigger frame and the capping frame. -/
theorem segment_max_bound_cex :
    ((runSegmenter (mkSegmenter 16000 512 0 1000 (1/32))
        [(true, List.replicate 512 7), (true, List.replicate 512 7)]).1.getD 1 {}).Ended
      = true ∧
    ((runSegmenter (mkSegmenter 16000 512 0 1000 (1/32))
        [(true, List.replicate 512 7), (true, List.replicate 512 7)]).1.getD 1
          {}).EndedBySilence = false ∧
    (mkSegmenter 16000 512 0 1000 (1/32)).cfg.maxChunks *
      (mkSegmenter 16000 512 0 1000 (1/32)).cfg.chunkSize = 512 ∧
    ((runSegmenter (mkSegmenter 16000 512 0 1000 (1/32))
        [(true, List.replicate 512 7), (true, List.replicate 512 7)]).1.getD 1
          {}).Segment.length = 1536 := by
  rw [mkSegmenter_cex2_eq]
  decide

/-- C2 (amended): for every sequence of processChunk calls from a well-formed
segmenter state, every result with `Ended = true` carries a segment of length
at most `(preChunks + max 2 maxChunks) * chunkSize` samples: the pre-speech
ring contributes up to `preChunks` frames on top of the `sinceTrigger`
counter, which reaches at most `max 2 maxChunks` on the ending frame. -/
theorem segment_length_bound (s0 : Segmenter) (inputs : List (Bool × Chunk))
    (hwf : SegWF s0) (r : SegmentResult) (hr : r ∈ (runSegmenter s0 inputs).1)
    (he : r.Ended = true) :
    r.Segment.length ≤
      (s0.cfg.preChunks + Nat.max 2 s0.cfg.maxChunks) * s0.cfg.chunkSize := by
  induction inputs generalizing s0 with
  | nil => simp [runSegmenter] at hr
  | cons p rest ih =>
    obtain ⟨b, c⟩ := p
    simp only [runSegmenter, List.mem_cons] at hr
    obtain ⟨hwf', hbound⟩ := processChunk_WF s0 b c hwf
    rcases hr with hr | hr
    · subst hr
      exact hbound he
    · have h := ih (processChunk s0 b c).2 hwf' hr
      rwa [processChunk_cfg] at h

/-- C2 witness: a concrete two-frame run from `segTiny` whose second result
ends the segment (by silence, at length 3 = (1 + max 2 2) * 1), with every
hypothesis of the amended bound discharged at that input. -/
theorem segment_length_bound_witness :
    ((runSegmenter segTiny [(true, [5]), (false, [0])]).1.getD 1 {}).Segment.length ≤
      (segTiny.cfg.preChunks + Nat.max 2 segTiny.cfg.maxChunks) * segTiny.cfg.chunkSize :=
  segment_length_bound segTiny [(true, [5]), (false, [0])]
    (by
      refine ⟨by decide, by decide, by decide, by decide, ?_, ?_⟩
      · intro c hc ch hch
        have hcn : c = none := by simpa [segTiny] using hc
        rw [hcn] at hch
        cases hch
      · intro h
        exact absurd h Bool.false_ne_true)
    ((runSegmenter segTiny [(true, [5]), (false, [0])]).1.getD 1 {})
    (by decide) (by decide)

set_option maxRecDepth 100000 in
/-- C8 witness: a concrete successful `speechProb` call on a fresh VAD state
with a frame of threes, every hypothesis discharged at that input. -/
theorem vad_context_invariant_witness :
    initVadState.context = List.replicate 64 0 ∧
    (vadResetState initVadState).context = List.replicate 64 0 ∧
    (speechProbM initVadState false (.ok (0, List.replicate 256 0))
        (List.replicate 512 3)).2.context =
      ((if false then vadResetState initVadState else initVadState).context ++
        List.replicate 512 3).drop 512 ∧
    (speechProbM initVadState false (.ok (0, List.replicate 256 0))
        (List.replicate 512 3)).2.context = (List.replicate 512 3).drop 448 :=
  vad_context_invariant initVadState false (.ok (0, List.replicate 256 0))
    (List.replicate 512 3) 0 (by simp [initVadState]) (by simp) (by rfl)

theorem foldl_runmax_init_le (l : List ℚ) : ∀ a : ℚ,
    a ≤ l.foldl (fun acc x => if x > acc then x else acc) a := by
  induction l with
  | nil => intro a; exact le_refl a
  | cons y t ih =>
    intro a
    refine le_trans ?_ (ih (if y > a then y else a))
    split_ifs with h
    · exact le_of_lt h
    · exact le_refl a

theorem foldl_runmax_mem_le (l : List ℚ) : ∀ (a x : ℚ), x ∈ l →
    x ≤ l.foldl (fun acc x => if x > acc then x else acc) a := by
  induction l with
  | nil => intro a x hx; cases hx
  | cons y t ih =>
    intro a x hx
    rcases List.mem_cons.mp hx with rfl | hx
    · refine le_trans ?_ (foldl_runmax_init_le t _)
      show x ≤ if x > a then x else a
      split_ifs with h
      · exact le_refl x
      · exact le_of_not_lt h
    · exact ih _ x hx

theorem paddedAudio_length (F : FloatOps) (audio : List ℚ) :
    (paddedAudio F audio).length = 128000 := by
  unfold paddedAudio
  dsimp only
  by_cases h : audio.length > 128000
  · have hd : (audio.drop (audio.length - 128000)).length = 128000 := by
      rw [List.length_drop]
      omega
    simp only [h, if_true]
    rw [if_pos (by simp [hd])]
    simp
    omega
  · simp only [h, if_false]
    by_cases h2 : audio.length ≥ 128000
    · rw [if_pos (by simpa using h2)]
      simp
      omega
    · rw [if_neg (by simpa using h2)]
      simp
      omega

theorem computeWhisperMelFromPadded_bounds (F : FloatOps) (padded : List ℚ)
    (hlen : padded.length = 128000) :
    ∃ out, computeWhisperMelFromPadded F padded = some out ∧
      out.length = 64000 ∧
      ∀ x ∈ out, (melMax F padded - 4) / 4 ≤ x ∧
        x ≤ (melMax F padded + 4) / 4 := by
  unfold computeWhisperMelFromPadded
  rw [if_neg (by simp [hlen])]
  dsimp only
  refine ⟨_, rfl, ?_, ?_⟩
  · simp only [List.length_map, melRaw, List.length_range]
  · intro x hx
    simp only [List.mem_map] at hx
    obtain ⟨y, hy, hxy⟩ := hx
    subst hxy
    have hym : y ≤ melMax F padded := foldl_runmax_mem_le _ _ y hy
    constructor
    · have hlo : melMax F padded - 8 ≤
          (if y < melMax F padded - 8 then melMax F padded - 8 else y) := by
        split_ifs with h
        · exact le_refl _
        · linarith [not_lt.mp h]
      linarith
    · have hhi : (if y < melMax F padded - 8 then melMax F padded - 8 else y) ≤
          melMax F padded := by
        split_ifs with h
        · linarith
        · exact hym
      linarith

/-- C7: `computeWhisperMel` returns the `nil` sentinel exactly on empty input;
on non-empty input it returns exactly 80 × 800 = 64 000 values, each lying in
`[(maxLog - 4)/4, (maxLog + 4)/4]` where `maxLog` is the running maximum of
the log-mel buffer before dynamic-range compression. -/
theorem computeWhisperMel_shape_bounds (F : FloatOps) (audio : List ℚ) :
    (audio = [] → computeWhisperMel F audio = none) ∧
    (audio ≠ [] → ∃ out, computeWhisperMel F audio = some out ∧
      out.length = 64000 ∧
      ∀ x ∈ out, (melMax F (paddedAudio F audio) - 4) / 4 ≤ x ∧
        x ≤ (melMax F (paddedAudio F audio) + 4) / 4) := by
  constructor
  · intro h
    subst h
    rfl
  · intro h
    have h0 : ¬ audio.length = 0 := by simpa using h
    unfold computeWhisperMel
    rw [if_neg h0]
    exact computeWhisperMelFromPadded_bounds F (paddedAudio F audio)
      (paddedAudio_length F audio)

/-- C7 witness: the shape-and-bounds conclusion instantiated at the constant
float operations `F0` and the one-sample input `[1]`, with the non-emptiness
hypothesis discharged there. -/
theorem computeWhisperMel_shape_bounds_witness :
    ∃ out, computeWhisperMel F0 [1] = some out ∧
      out.length = 64000 ∧
      ∀ x ∈ out, (melMax F0 (paddedAudio F0 [1]) - 4) / 4 ≤ x ∧
        x ≤ (melMax F0 (paddedAudio F0 [1]) + 4) / 4 :=
  (computeWhisperMel_shape_bounds F0 [1]).2 (by decide)
